/-
Verification of the openapi-multi-swagger server (package swagger, server.go)
against its natural-language specification.

The development shallowly embeds the server's pure logic:
  * `makeServerURL` / `updateSpecServerInfo` — the spec-rewriting engine,
  * `updateSpecs` — the registry replacement,
  * `serveIndividualSpec` — the fetch/decode/rewrite pipeline (HTTP I/O is
    modelled by explicit oracles for the outbound GET and URL parsing),
  * `proxyRequest` — the reverse-proxy relay (upstream dispatch is an oracle).

URLs are modelled by their scheme/host/path components (userinfo, query,
fragment and percent-escaping are not modelled; the server only manipulates
scheme, host and path).  `net/url`'s reference resolution is embedded by
`resolvePath`, a segment-level implementation of RFC 3986 section 5.2
(the documented contract of `URL.ResolveReference`).  Independently,
`removeDotSegments` transcribes the character-level algorithm of RFC 3986
section 5.2.4 word for word from the RFC; the two are proved equivalent.
-/
import Mathlib

namespace Swagger

/-! ### Generic character-list helpers -/

/-- All characters of `s` differ from `c`. -/
def noChar (c : Char) (s : List Char) : Prop := ∀ x ∈ s, x ≠ c

/-- `base[:i+1]` where `i` is the index of the last `'/'` in `base`
(`""` when there is none) — the prefix kept by RFC 3986 path merging and by
`net/url`'s `resolvePath`. -/
def upToLastSlash (s : List Char) : List Char :=
  ((s.reverse.dropWhile (fun c => c ≠ '/')).reverse)

/-- Split a character list at every `'/'` (the result is never empty);
model of `strings.Split(s, "/")`. -/
def splitSl : List Char → List (List Char)
  | [] => [[]]
  | c :: cs =>
    if c = '/' then [] :: splitSl cs
    else
      match splitSl cs with
      | s :: ss => (c :: s) :: ss
      | [] => [[c]]

/-- Concatenate segments, prefixing each with `'/'`:
`catSegs [s₁, …, sₙ] = "/s₁/…/sₙ"`. -/
def catSegs (d : List (List Char)) : List Char :=
  d.foldr (fun s acc => '/' :: s ++ acc) []

/-- Remove the last segment and its preceding `'/'` (if any) from an output
buffer (RFC 3986 §5.2.4, rule C). -/
def popSeg (out : List Char) : List Char :=
  ((out.reverse.dropWhile (fun c => c ≠ '/')).drop 1).reverse

/-! ### URL model and `net/url` resolution -/

/-- The scheme/host/path components of a parsed URL (`net/url.URL`). -/
structure URL where
  scheme : String
  host : String
  path : String
deriving DecidableEq

/-- One folding step of dot-segment elimination over a path's segments:
`"."` is dropped, `".."` removes the previous segment, anything else is kept
(RFC 3986 §5.2.4 at segment granularity). -/
def dotStep (d : List (List Char)) (e : List Char) : List (List Char) :=
  if e = ['.'] then d
  else if e = ['.', '.'] then d.dropLast
  else d ++ [e]

/-- Whether a segment is `"."` or `".."`. -/
def isDotSeg (s : List Char) : Bool :=
  if s = ['.'] then true else if s = ['.', '.'] then true else false

/-- Whether the final segment is `"."` or `".."` (such a path resolves with a
trailing slash). -/
def lastIsDot (segs : List (List Char)) : Bool :=
  match segs.getLast? with
  | some s => isDotSeg s
  | none => false

/-- Process the segments of a path: fold `dotStep` from an initial segment
stack and add a final empty segment when the path ends in a dot segment. -/
def goProcess (osegs : List (List Char)) (segs : List (List Char)) :
    List (List Char) :=
  let d := segs.foldl dotStep osegs
  if lastIsDot segs then d ++ [[]] else d

/-- Dot-segment elimination on a full path, producing a `'/'`-led path
(as `net/url`'s `resolvePath` always does). -/
def resolvePathCore (full : List Char) : List Char :=
  match full with
  | '/' :: rest => catSegs (goProcess [] (splitSl rest))
  | other => catSegs (goProcess [] (splitSl other))

/-- Model of `net/url.resolvePath(base, ref)`: merge `ref` onto `base`
(RFC 3986 §5.3) and eliminate dot segments. -/
def resolvePath (basePath ref : String) : String :=
  let full : List Char :=
    if ref = "" then basePath.toList
    else if ref.toList.head? = some '/' then ref.toList
    else upToLastSlash basePath.toList ++ ref.toList
  if full = [] then "" else (resolvePathCore full).asString

/-- Model of `base.ResolveReference(&url.URL{Path: p})` for a reference that
carries only a path: scheme and host come from the base, the path is resolved. -/
def resolveReference (base : URL) (p : String) : URL :=
  { scheme := base.scheme, host := base.host, path := resolvePath base.path p }

/-- Model of `url.URL.String()` restricted to scheme/host/path. -/
def URL.render (u : URL) : String :=
  (if u.scheme ≠ "" then u.scheme ++ ":" else "") ++
  (if u.scheme ≠ "" ∨ u.host ≠ "" then
     (if u.host ≠ "" ∨ u.path ≠ "" then "//" ++ u.host else "")
   else "") ++
  (if u.path ≠ "" ∧ u.path.toList.head? ≠ some '/' ∧ u.host ≠ ""
   then "/" ++ u.path else u.path)

/-- Character admissible after the first position of a URL scheme. -/
def isSchemeRest (c : Char) : Bool :=
  c.isAlpha || c.isDigit || c = '+' || c = '-' || c = '.'

/-- Scan for `":"` terminating a scheme (model of `net/url.getScheme`
acceptance after the first character). -/
def hasSchemeAux : List Char → Bool
  | [] => false
  | c :: cs => if c = ':' then true else if isSchemeRest c then hasSchemeAux cs else false

/-- Whether `url.Parse(s)` yields an absolute URL (`IsAbs()`, i.e. a
non-empty scheme): an initial letter followed by scheme characters and a
colon. -/
def hasScheme (s : String) : Bool :=
  match s.toList with
  | [] => false
  | c :: cs => c.isAlpha && hasSchemeAux cs

/-- Model of `strings.HasPrefix s pre`. -/
def strHasPref (s pre : String) : Bool := pre.toList.isPrefixOf s.toList

/-- Whether a path's last byte is `'/'` (the `base.Path[len(base.Path)-1] == '/'`
test in `makeServerURL`; `false` on the empty path). -/
def endsInSlash (s : String) : Bool := s.toList.getLast? = some '/'

/-- Embedding of `Server.makeServerURL(metadataURL, pathComponent)`:
empty component → `scheme://host`; absolute component → unchanged;
`'/'`-led component → `scheme://host` + component; otherwise reference
resolution against the base with a `'/'`-terminated path. -/
def makeServerURL (metadataURL : URL) (pathComponent : String) : String :=
  if pathComponent = "" then
    metadataURL.scheme ++ "://" ++ metadataURL.host
  else if hasScheme pathComponent then
    pathComponent
  else
    let base : URL :=
      if (metadataURL.path = "" ∨ ¬ endsInSlash metadataURL.path)
          ∧ ¬ strHasPref pathComponent "/" then
        { metadataURL with path := metadataURL.path ++ "/" }
      else metadataURL
    if strHasPref pathComponent "/" then
      metadataURL.scheme ++ "://" ++ metadataURL.host ++ pathComponent
    else
      (resolveReference base pathComponent).render

/-! ### RFC 3986 §5.2.4 `remove_dot_segments`, transcribed character by
character from the RFC's pseudo-code (the specification side of the
resolution claims). -/

/-- One fuelled pass of RFC 3986 §5.2.4: `rdsF fuel out input` runs the
`remove_dot_segments` loop on `input` with output buffer `out`.  The fuel
only serves to make the recursion structural; `input.length < fuel` always
suffices since every iteration shortens the input. -/
def rdsF : Nat → List Char → List Char → List Char
  | 0, out, _ => out
  | fuel + 1, out, input =>
    if input = [] then out
    else if input.take 3 = ['.', '.', '/'] then rdsF fuel out (input.drop 3)
    else if input.take 2 = ['.', '/'] then rdsF fuel out (input.drop 2)
    else if input = ['.'] ∨ input = ['.', '.'] then out
    else if input.take 3 = ['/', '.', '/'] then rdsF fuel out ('/' :: input.drop 3)
    else if input = ['/', '.'] then rdsF fuel out ['/']
    else if input.take 4 = ['/', '.', '.', '/'] then
      rdsF fuel (popSeg out) ('/' :: input.drop 4)
    else if input = ['/', '.', '.'] then rdsF fuel (popSeg out) ['/']
    else if input.head? = some '/' then
      rdsF fuel (out ++ '/' :: input.tail.takeWhile (fun c => c ≠ '/'))
        (input.tail.dropWhile (fun c => c ≠ '/'))
    else
      rdsF fuel (out ++ input.takeWhile (fun c => c ≠ '/'))
        (input.dropWhile (fun c => c ≠ '/'))

/-- RFC 3986 §5.2.4 `remove_dot_segments`. -/
def removeDotSegments (s : String) : String :=
  (rdsF (s.toList.length + 1) [] s.toList).asString

/-- The specification's `resolve(base, pathComponent)` for a relative (not
`'/'`-led) component, following the spec's words: ensure the base's path ends
with `"/"`, join, apply RFC 3986 dot-segment removal, and recompose
`scheme://host` + path. -/
def rfcResolve (base : URL) (pc : String) : String :=
  let bp := if endsInSlash base.path then base.path else base.path ++ "/"
  base.scheme ++ "://" ++ base.host ++ removeDotSegments (bp ++ pc)

/-! ### Loosely-typed JSON documents (`map[string]interface{}`) -/

/-- A decoded JSON value, mirroring the dynamic `interface{}` tree the server
traverses. -/
inductive JValue where
  | null : JValue
  | bool (b : Bool) : JValue
  | num (n : Int) : JValue
  | str (s : String) : JValue
  | arr (elems : List JValue) : JValue
  | obj (fields : List (String × JValue)) : JValue

/-- A decoded JSON object (`map[string]interface{}`); keys are unique in a
decoded document, so first-match lookup is map lookup. -/
abbrev JObj := List (String × JValue)

/-- Go map read `m[k]` (as `Option`, `none` for a missing key). -/
def lookupField : JObj → String → Option JValue
  | [], _ => none
  | (k, v) :: rest, key => if k = key then some v else lookupField rest key

/-- Go map write `m[k] = v`. -/
def setField : JObj → String → JValue → JObj
  | [], key, v => [(key, v)]
  | (k, w) :: rest, key, v =>
    if k = key then (key, v) :: rest else (k, w) :: setField rest key v

/-- Checked string read `m[k].(string)`: `""` when the key is absent or the
value is not a string (Go's two-valued type assertion discarding `ok`). -/
def getString (spec : JObj) (key : String) : String :=
  match lookupField spec key with
  | some (JValue.str s) => s
  | _ => ""

/-- Checked array read `m[k].([]interface{})`: `nil` (the empty list) when the
key is absent or the value is not an array. -/
def getArr (spec : JObj) (key : String) : List JValue :=
  match lookupField spec key with
  | some (JValue.arr xs) => xs
  | _ => []

/-- Embedding of `Server.updateSpecServerInfo(spec, metadataURL)`:
OpenAPI 3.x rebuilds `servers` (resolved first entry, originals appended);
Swagger 2.0 sets `host`; otherwise a string `basePath` is resolved in place. -/
def updateSpecServerInfo (spec : JObj) (metadataURL : URL) : JObj :=
  let openAPIVersion := getString spec "openapi"
  let swaggerVersion := getString spec "swagger"
  if openAPIVersion ≠ "" ∧ strHasPref openAPIVersion "3." then
    let existingServers := getArr spec "servers"
    let newServers : List JValue :=
      match existingServers with
      | JValue.obj firstServer :: _ =>
        match lookupField firstServer "url" with
        | some (JValue.str serverURL) =>
          [JValue.obj [("url", JValue.str (makeServerURL metadataURL serverURL))]]
        | _ => []
      | _ => []
    let newServers :=
      match newServers with
      | [] => [JValue.obj [("url", JValue.str (makeServerURL metadataURL ""))]]
      | _ => newServers
    setField spec "servers" (JValue.arr (newServers ++ existingServers))
  else if swaggerVersion = "2.0" then
    setField spec "host" (JValue.str metadataURL.host)
  else
    match lookupField spec "basePath" with
    | some (JValue.str basePath) =>
      setField spec "basePath" (JValue.str (makeServerURL metadataURL basePath))
    | _ => spec

/-! ### Spec registry (`APIMetadata`, `Server.UpdateSpecs`) -/

/-- The `APIMetadata` record (the `Namespace` field is called `nmspace` since
`namespace` is a Lean keyword). -/
structure APIMetadata where
  name : String
  url : String
  title : String
  version : String
  description : String
  resourceType : String
  resourceName : String
  nmspace : String
  lastUpdated : String
  allowedMethods : List String
  error : String
deriving DecidableEq

/-- The metadata record `UpdateSpecs` actually stores for an accepted
candidate: `Title` is set to the candidate's `Name`, `Description` is
synthesized, and `Version`/`Error` are left at their zero value. -/
def mkStoredMetadata (api : APIMetadata) : APIMetadata :=
  { name := api.name
    url := api.url
    title := api.name
    version := ""
    description := "API from " ++ api.nmspace ++ "/" ++ api.resourceName
    resourceType := api.resourceType
    resourceName := api.resourceName
    nmspace := api.nmspace
    lastUpdated := api.lastUpdated
    allowedMethods := api.allowedMethods
    error := "" }

/-- The registry snapshot: Go's `map[string]APIMetadata` as a lookup
function. -/
abbrev Snapshot := String → Option APIMetadata

/-- Embedding of `Server.UpdateSpecs(apis)`: build a fresh map, skipping
candidates with a non-empty `error`, later candidates overwriting earlier ones
of the same name, and install it as the snapshot. -/
def updateSpecs (apis : List APIMetadata) : Snapshot :=
  apis.foldl
    (fun m api =>
      if api.error ≠ "" then m
      else fun k => if k = api.name then some (mkStoredMetadata api) else m k)
    (fun _ => none)

/-! ### Fetch & rewrite pipeline (`serveIndividualSpec`) -/

/-- Result of the outbound `http.Get`: a transport error carrying Go's error
text, or a response with a status code and a body whose JSON decoding either
fails (with an error text) or produces an object. -/
inductive FetchResult where
  | failure (errText : String) : FetchResult
  | success (statusCode : Nat) (decoded : Except String JObj) : FetchResult

/-- Outcome of `serveIndividualSpec` at the HTTP boundary: `logMsg` is what
`logAndSendError` writes to the server log, `clientMsg` the response body sent
to the client. -/
inductive RenderOutcome where
  | notFound (logMsg clientMsg : String) : RenderOutcome
  | error (status : Nat) (logMsg clientMsg : String) : RenderOutcome
  | ok (doc : JObj) : RenderOutcome

/-- Embedding of `Server.serveIndividualSpec` for a given spec name: `specs`
is the registry snapshot, `fetch` the outbound-GET oracle and `parse` the
`url.Parse` oracle (an `Except` carrying the error text on failure).  The
first component lists the URLs fetched over HTTP, in order. -/
def serveIndividualSpec (specs : Snapshot) (parse : String → Except String URL)
    (fetch : String → FetchResult) (apiName : String) :
    List String × RenderOutcome :=
  match specs apiName with
  | none => ([], .notFound ("API not found" ++ ": " ++ apiName) "API not found")
  | some metadata =>
    match fetch metadata.url with
    | .failure errText =>
      ([metadata.url],
        .error 500 ("Failed to fetch spec: " ++ errText)
          ("Failed to fetch spec: " ++ errText))
    | .success statusCode decoded =>
      if statusCode ≠ 200 then
        ([metadata.url],
          .error statusCode ("Failed to fetch spec, status: " ++ toString statusCode)
            ("Failed to fetch spec, status: " ++ toString statusCode))
      else
        match parse metadata.url with
        | .error errText =>
          ([metadata.url],
            .error 500 ("Failed to parse metadata URL: " ++ errText)
              ("Failed to parse metadata URL: " ++ errText))
        | .ok metadataURL =>
          match decoded with
          | .error errText =>
            ([metadata.url],
              .error 500 ("Failed to decode OpenAPI spec: " ++ errText)
                ("Failed to decode OpenAPI spec: " ++ errText))
          | .ok spec =>
            ([metadata.url], .ok (updateSpecServerInfo spec metadataURL))

/-! ### Reverse proxy relay (`proxyRequest`) and routing (`ServeHTTP`) -/

/-- HTTP headers as Go's `http.Header`: a map from names to value lists
(duplicate header lines accumulate in the list). -/
abbrev Headers := List (String × List String)

/-- `http.Header.Add`: append a value under a name, creating the entry if
needed. -/
def addHeader : Headers → String → String → Headers
  | [], n, v => [(n, [v])]
  | (k, vs) :: rest, n, v =>
    if k = n then (k, vs ++ [v]) :: rest else (k, vs) :: addHeader rest n v

/-- The double copy loop `for name, values := range src { for _, v := range
values { dst.Add(name, v) } }`. -/
def addAll (dst : Headers) (src : Headers) : Headers :=
  src.foldl (fun d e => e.2.foldl (fun d2 v => addHeader d2 e.1 v) d) dst

/-- Multiplicity of the header pair `(n, v)` in a header map. -/
def headerCount (h : Headers) (n v : String) : Nat :=
  (h.map (fun e => if e.1 = n then e.2.count v else 0)).sum

/-- An inbound HTTP request as the handler sees it: method, path, parsed
query parameters (in order, `Get` returns the first match), headers, body. -/
structure HttpRequest where
  method : String
  path : String
  query : List (String × String)
  headers : Headers
  body : Option (List UInt8)

/-- `r.URL.Query().Get(k)`: first value for `k`, `""` when absent. -/
def getQuery : List (String × String) → String → String
  | [], _ => ""
  | (k, v) :: rest, key => if k = key then v else getQuery rest key

/-- The outbound request built by `http.NewRequest` plus the header-copy
loop in `proxyRequest`. -/
structure OutboundRequest where
  method : String
  url : String
  headers : Headers
  body : Option (List UInt8)
deriving DecidableEq

/-- An upstream response: status, headers, body bytes. -/
structure UpstreamResponse where
  statusCode : Nat
  headers : Headers
  body : List UInt8

/-- What `proxyRequest` writes back: an early client error (status + body
message), a forwarding error, or a relayed response whose status line is
written first, then the headers already set plus every upstream header, then
the streamed body. -/
inductive ProxyOutcome where
  | clientError (status : Nat) (clientMsg : String) : ProxyOutcome
  | relayed (writtenStatus : Nat) (writtenHeaders : Headers)
      (writtenBody : List UInt8) : ProxyOutcome

/-- Embedding of `Server.proxyRequest`: `w0` are the response headers already
set before the handler runs (the CORS headers added by `ServeHTTP`),
`upstream` the `client.Do` oracle (`none` = transport failure).  The first
component is the list of outbound requests dispatched. -/
def proxyRequest (w0 : Headers) (upstream : OutboundRequest → Option UpstreamResponse)
    (r : HttpRequest) : List OutboundRequest × ProxyOutcome :=
  let targetProxyURL := getQuery r.query "proxyUrl"
  if targetProxyURL = "" then
    ([], .clientError 400 "proxyUrl query parameter is required for all requests")
  else
    let finalTargetURL := targetProxyURL
    let proxyReq : OutboundRequest :=
      { method := r.method
        url := finalTargetURL
        headers := addAll [] r.headers
        body := r.body }
    match upstream proxyReq with
    | none => ([proxyReq], .clientError 500 "Failed to forward request")
    | some resp =>
      ([proxyReq], .relayed resp.statusCode (addAll w0 resp.headers) resp.body)

/-- `Server.stripBasePath`. -/
def stripBasePath (basePath path : String) : String :=
  if basePath ≠ "" ∧ strHasPref path basePath then
    (path.toList.drop basePath.toList.length).asString
  else path

/-- The routing outcomes of `ServeHTTP` that the claims discriminate; only
the proxy branch is elaborated, the others record which handler ran. -/
inductive RouteOutcome where
  | corsPreflight : RouteOutcome
  | index : RouteOutcome
  | specsList : RouteOutcome
  | apiSpec (name : String) : RouteOutcome
  | proxied (calls : List OutboundRequest) (outcome : ProxyOutcome) : RouteOutcome
  | staticFile (path : String) : RouteOutcome

/-- Embedding of `Server.ServeHTTP` routing: OPTIONS short-circuits, then the
(base-path-stripped) path is matched in order against `/`, `/index.html`,
`/swagger-specs`, the `/api/` prefix and the `/proxy/` prefix. -/
def serveHTTP (basePath : String) (w0 : Headers)
    (upstream : OutboundRequest → Option UpstreamResponse) (r : HttpRequest) :
    RouteOutcome :=
  if r.method = "OPTIONS" then .corsPreflight
  else
    let path := stripBasePath basePath r.path
    if path = "/" ∨ path = "/index.html" then .index
    else if path = "/swagger-specs" then .specsList
    else if strHasPref path "/api/" then
      .apiSpec ((path.toList.drop "/api/".toList.length).asString)
    else if strHasPref path "/proxy/" then
      let (calls, outcome) := proxyRequest w0 upstream r
      .proxied calls outcome
    else .staticFile path

/-! ### Concrete instances used by counterexamples and witnesses -/

/-- The URL of the first server entry of an OpenAPI 3.x `servers` array, when
that array is present, non-empty and its first entry is an object with a
string `url` (the shape `updateSpecServerInfo` can extract a URL from). -/
def firstServerURL : List JValue → Option String
  | JValue.obj firstServer :: _ =>
    match lookupField firstServer "url" with
    | some (JValue.str u) => some u
    | _ => none
  | _ => none

/-- A candidate record whose display fields differ from what the registry
stores for it. -/
def c7api : APIMetadata :=
  { name := "svc", url := "http://spec.example/v2/swagger.json",
    title := "My Title", version := "1.2.3",
    description := "original description", resourceType := "Service",
    resourceName := "svc-rn", nmspace := "default",
    lastUpdated := "2025-01-01", allowedMethods := ["GET"], error := "" }

/-- An OpenAPI 3.x document with one relative server entry. -/
def c1spec : JObj :=
  [("openapi", JValue.str "3.0.1"),
   ("servers", JValue.arr [JValue.obj [("url", JValue.str "/v1")]])]

/-- An OpenAPI 3.x document whose `servers` value is malformed (a string). -/
def c1specBad : JObj :=
  [("openapi", JValue.str "3.1.0"), ("servers", JValue.str "oops")]

/-- The registry URL used by the rewrite examples. -/
def exURL : URL := { scheme := "http", host := "spec.example", path := "/v2/swagger.json" }

/-- The Swagger 2.0 document of the specification's scenario. -/
def c3spec : JObj :=
  [("swagger", JValue.str "2.0"), ("basePath", JValue.str "/v2")]

/-- A registered record for the fetch-pipeline examples. -/
def exMeta : APIMetadata :=
  { name := "petstore", url := "http://spec.example/v2/swagger.json",
    title := "petstore", version := "", description := "",
    resourceType := "", resourceName := "", nmspace := "",
    lastUpdated := "", allowedMethods := [], error := "" }

/-- A one-record registry snapshot for the fetch-pipeline examples. -/
def exSpecs : Snapshot := fun n => if n = "petstore" then some exMeta else none

/-- A `url.Parse` oracle that accepts the example record's URL. -/
def exParse : String → Except String URL := fun _ => .ok exURL

/-- A fetch oracle answering `201 Created` with a decodable OpenAPI body. -/
def c4fetch201 : String → FetchResult :=
  fun _ => .success 201 (.ok [("openapi", JValue.str "3.0.0")])

/-- A fetch oracle answering `200 OK` with a decodable Swagger 2.0 body. -/
def c4fetch200 : String → FetchResult :=
  fun _ => .success 200 (.ok c3spec)

/-- A fetch oracle failing at the transport level with Go's error text. -/
def c6fetchFail : String → FetchResult :=
  fun _ => .failure "connection refused"

/-- An inbound proxied request with a path suffix, an extra query parameter
and duplicate headers. -/
def c8req : HttpRequest :=
  { method := "POST", path := "/proxy/pets",
    query := [("proxyUrl", "http://backend/x"), ("other", "1")],
    headers := [("X-A", ["1", "1"]), ("X-B", ["2"])],
    body := some [104, 105] }

/-- An upstream response with a duplicate header. -/
def c8resp : UpstreamResponse :=
  { statusCode := 204, headers := [("Set-Cookie", ["a", "b"])], body := [9, 9] }

/-- An upstream oracle always answering `c8resp`. -/
def c8upstream : OutboundRequest → Option UpstreamResponse := fun _ => some c8resp

/-- `c8req` with a different path suffix and different unrelated query
parameters, but the same `proxyUrl` value. -/
def c8req2 : HttpRequest :=
  { method := "POST", path := "/proxy/other/longer/path",
    query := [("unrelated", "zzz"), ("proxyUrl", "http://backend/x")],
    headers := [("X-A", ["1", "1"]), ("X-B", ["2"])],
    body := some [104, 105] }

/-! ## Map lemmas -/

theorem lookupField_setField_same (spec : JObj) (k : String) (v : JValue) :
    lookupField (setField spec k v) k = some v := by
  induction spec with
  | nil => simp [setField, lookupField]
  | cons e rest ih =>
    by_cases h : e.1 = k
    · simp [setField, lookupField, h]
    · simp [setField, lookupField, h, ih]

theorem lookupField_setField_other (spec : JObj) (k k2 : String) (v : JValue)
    (h : k2 ≠ k) : lookupField (setField spec k v) k2 = lookupField spec k2 := by
  have hk : ¬ k = k2 := Ne.symm h
  induction spec with
  | nil => simp [setField, lookupField, hk]
  | cons e rest ih =>
    by_cases he : e.1 = k
    · simp [setField, he, lookupField, hk]
    · simp only [setField, if_neg he, lookupField]
      by_cases h2 : e.1 = k2 <;> simp [h2, ih]

/-! ## Registry: characterization of `UpdateSpecs` (claims C5 and C7) -/

theorem updateSpecs_foldl (apis : List APIMetadata) (m : Snapshot) (n : String) :
    (apis.foldl
        (fun m api =>
          if api.error ≠ "" then m
          else fun k => if k = api.name then some (mkStoredMetadata api) else m k)
        m) n =
      match (apis.filter (fun a => a.error = "")).reverse.find?
          (fun a => a.name = n) with
      | some a => some (mkStoredMetadata a)
      | none => m n := by
  induction apis generalizing m with
  | nil => simp
  | cons api rest ih =>
    rw [List.foldl_cons]
    by_cases herr : api.error = ""
    · rw [if_neg (by simp [herr])]
      rw [ih, List.filter_cons_of_pos (by simp [herr]), List.reverse_cons,
        List.find?_append]
      cases hfind : (rest.filter (fun a => a.error = "")).reverse.find?
          (fun a => a.name = n) with
      | some a => simp [hfind]
      | none =>
        simp only [hfind, Option.none_or, List.find?_cons, List.find?_nil]
        by_cases hn : api.name = n
        · subst hn; simp
        · have hn2 : ¬ n = api.name := fun hh => hn hh.symm
          simp [hn, hn2]
    · rw [if_pos (by simpa using herr)]
      rw [ih, List.filter_cons_of_neg (by simp [herr])]

/-- The map `UpdateSpecs` installs, as a function of the candidate batch:
error-free candidates only, keyed by name, last one of a name winning,
each stored as its rewritten metadata. -/
theorem updateSpecs_eq_find (apis : List APIMetadata) (n : String) :
    updateSpecs apis n =
      ((apis.filter (fun a => a.error = "")).reverse.find?
          (fun a => a.name = n)).map mkStoredMetadata := by
  rw [updateSpecs, updateSpecs_foldl]
  cases (apis.filter (fun a => a.error = "")).reverse.find? (fun a => a.name = n) <;>
    simp

/-- C5: the snapshot installed by `Replace` (`UpdateSpecs`) maps a name to an
entry exactly for the error-free candidates — candidates with a non-empty
`error` are skipped and not stored — and for a given name the last error-free
candidate of the batch wins (so a batch with one errored and one error-free
record yields a snapshot containing only the entry for the error-free one). -/
theorem C5_replace_snapshot (apis : List APIMetadata) (n : String) :
    updateSpecs apis n =
      ((apis.filter (fun a => a.error = "")).reverse.find?
          (fun a => a.name = n)).map mkStoredMetadata :=
  updateSpecs_eq_find apis n

/-- C7 counterexample: the stored record is not field-for-field the incoming
candidate — for `c7api` (error-free, `title = "My Title"`,
`version = "1.2.3"`) the stored `title` and `version` differ from the
supplied ones. -/
theorem C7_counterexample :
    (updateSpecs [c7api] "svc").map APIMetadata.title ≠ some c7api.title ∧
    (updateSpecs [c7api] "svc").map APIMetadata.version ≠ some c7api.version := by
  decide

/-- C7 (amended): every entry of the installed snapshot comes from an
error-free candidate of the batch with that name, and it keeps the
candidate's `name`, `url`, `resourceType`, `resourceName`, `namespace`,
`lastUpdated` and `allowedMethods`; but `title` is set to the candidate's
`name`, `description` is synthesized as `"API from {namespace}/{resourceName}"`,
and `version` and `error` are stored empty. -/
theorem C7_stored_record_fields (apis : List APIMetadata) (n : String)
    (r : APIMetadata) (h : updateSpecs apis n = some r) :
    ∃ api ∈ apis, api.error = "" ∧ api.name = n ∧
      r.name = api.name ∧ r.url = api.url ∧
      r.resourceType = api.resourceType ∧ r.resourceName = api.resourceName ∧
      r.nmspace = api.nmspace ∧ r.lastUpdated = api.lastUpdated ∧
      r.allowedMethods = api.allowedMethods ∧
      r.title = api.name ∧
      r.description = "API from " ++ api.nmspace ++ "/" ++ api.resourceName ∧
      r.version = "" ∧ r.error = "" := by
  rw [updateSpecs_eq_find] at h
  cases hfind : (apis.filter (fun a => a.error = "")).reverse.find?
      (fun a => a.name = n) with
  | none => rw [hfind] at h; simp at h
  | some a =>
    rw [hfind] at h
    rw [Option.map_some', Option.some.injEq] at h
    have hmem : a ∈ apis.filter (fun a => a.error = "") :=
      List.mem_reverse.mp (List.mem_of_find?_eq_some hfind)
    have hmem2 := List.mem_filter.mp hmem
    have hname : a.name = n := by simpa using List.find?_some hfind
    refine ⟨a, hmem2.1, by simpa using hmem2.2, hname, ?_⟩
    subst h
    exact ⟨rfl, rfl, rfl, rfl, rfl, rfl, rfl, rfl, rfl, rfl, rfl⟩

/-! ## Spec rewriting (claims C1 and C3) -/

/-- C1: for an OpenAPI 3.x document, the rewritten `servers` array has as its
first entry a server whose url is `makeServerURL` of the original first
server's url when that url can be extracted, followed by all original entries
unchanged and in order; otherwise the array begins with a single synthesized
entry whose url is `makeServerURL base ""`, followed by whatever was there. -/
theorem C1_openapi3_servers (spec : JObj) (base : URL)
    (h3 : getString spec "openapi" ≠ "" ∧ strHasPref (getString spec "openapi") "3.") :
    (∀ firstServer rest u,
        getArr spec "servers" = JValue.obj firstServer :: rest →
        lookupField firstServer "url" = some (JValue.str u) →
        lookupField (updateSpecServerInfo spec base) "servers" =
          some (JValue.arr
            (JValue.obj [("url", JValue.str (makeServerURL base u))] ::
              (JValue.obj firstServer :: rest)))) ∧
    (firstServerURL (getArr spec "servers") = none →
        lookupField (updateSpecServerInfo spec base) "servers" =
          some (JValue.arr
            (JValue.obj [("url", JValue.str (makeServerURL base ""))] ::
              getArr spec "servers"))) := by
  constructor
  · intro firstServer rest u hserv hurl
    simp only [updateSpecServerInfo, if_pos h3, hserv, hurl]
    simp [lookupField_setField_same]
  · intro hnone
    simp only [updateSpecServerInfo, if_pos h3]
    cases harr : getArr spec "servers" with
    | nil => simp [lookupField_setField_same]
    | cons hd tl =>
      rw [harr] at hnone
      cases hd with
      | obj firstServer =>
        cases hurl : lookupField firstServer "url" with
        | none => simp only [hurl, firstServerURL] at hnone ⊢
                  simp [lookupField_setField_same]
        | some v =>
          cases v with
          | str u => rw [firstServerURL, hurl] at hnone; exact absurd hnone (by simp)
          | null => simp only [hurl, firstServerURL] at hnone ⊢
                    simp [lookupField_setField_same]
          | bool b => simp only [hurl, firstServerURL] at hnone ⊢
                      simp [lookupField_setField_same]
          | num q => simp only [hurl, firstServerURL] at hnone ⊢
                     simp [lookupField_setField_same]
          | arr xs => simp only [hurl, firstServerURL] at hnone ⊢
                      simp [lookupField_setField_same]
          | obj f2 => simp only [hurl, firstServerURL] at hnone ⊢
                      simp [lookupField_setField_same]
      | null => simp only [firstServerURL] at hnone ⊢; simp [lookupField_setField_same]
      | bool b => simp only [firstServerURL] at hnone ⊢; simp [lookupField_setField_same]
      | num q => simp only [firstServerURL] at hnone ⊢; simp [lookupField_setField_same]
      | str s => simp only [firstServerURL] at hnone ⊢; simp [lookupField_setField_same]
      | arr xs => simp only [firstServerURL] at hnone ⊢; simp [lookupField_setField_same]

/-- Closed instance of the C1 theorem: the well-formed document `c1spec`
(first server `/v1`) and the malformed document `c1specBad` (`servers` is a
string), both rewritten against `exURL`. -/
theorem C1_openapi3_servers_witness :
    (lookupField (updateSpecServerInfo c1spec exURL) "servers" =
      some (JValue.arr
        (JValue.obj [("url", JValue.str (makeServerURL exURL "/v1"))] ::
          (JValue.obj [("url", JValue.str "/v1")] :: [])))) ∧
    (lookupField (updateSpecServerInfo c1specBad exURL) "servers" =
      some (JValue.arr
        (JValue.obj [("url", JValue.str (makeServerURL exURL ""))] ::
          getArr c1specBad "servers"))) :=
  ⟨(C1_openapi3_servers c1spec exURL (by constructor <;> decide)).1
      [("url", JValue.str "/v1")] [] "/v1" rfl rfl,
    (C1_openapi3_servers c1specBad exURL (by constructor <;> decide)).2 rfl⟩

/-- C3: for a Swagger 2.0 document (and no OpenAPI 3.x marker), the rewrite
sets `host` to exactly the record URL's host and leaves `basePath` and
`schemes` untouched. -/
theorem C3_swagger2_host (spec : JObj) (metadataURL : URL)
    (hsw : getString spec "swagger" = "2.0")
    (h3 : ¬ (getString spec "openapi" ≠ "" ∧
        strHasPref (getString spec "openapi") "3.")) :
    lookupField (updateSpecServerInfo spec metadataURL) "host" =
        some (JValue.str metadataURL.host) ∧
    lookupField (updateSpecServerInfo spec metadataURL) "basePath" =
        lookupField spec "basePath" ∧
    lookupField (updateSpecServerInfo spec metadataURL) "schemes" =
        lookupField spec "schemes" := by
  simp only [updateSpecServerInfo, if_neg h3, if_pos hsw]
  exact ⟨lookupField_setField_same _ _ _,
    lookupField_setField_other _ _ _ _ (by decide),
    lookupField_setField_other _ _ _ _ (by decide)⟩

/-- Closed instance of the C3 theorem: the specification's scenario — record
url `http://spec.example/v2/swagger.json`, body
`{"swagger":"2.0","basePath":"/v2"}` — yields `host = "spec.example"` with
`basePath` unchanged (and `schemes`, absent here, unchanged). -/
theorem C3_swagger2_host_witness :
    lookupField (updateSpecServerInfo c3spec exURL) "host" =
        some (JValue.str "spec.example") ∧
    lookupField (updateSpecServerInfo c3spec exURL) "basePath" =
        lookupField c3spec "basePath" ∧
    lookupField (updateSpecServerInfo c3spec exURL) "schemes" =
        lookupField c3spec "schemes" :=
  C3_swagger2_host c3spec exURL rfl (by decide)

/-! ## Fetch pipeline (claims C4 and C6) -/

/-- C4 counterexample: a registered spec whose fetch answers `201 Created`
(a 2xx status) with a decodable JSON object body is *not* rendered — the
handler rejects every status other than exactly 200. -/
theorem C4_counterexample :
    (200 ≤ 201 ∧ 201 < 300) ∧
    (∀ doc, (serveIndividualSpec exSpecs exParse c4fetch201 "petstore").2 ≠
        RenderOutcome.ok doc) ∧
    (serveIndividualSpec exSpecs exParse c4fetch201 "petstore").2 =
      RenderOutcome.error 201 "Failed to fetch spec, status: 201"
        "Failed to fetch spec, status: 201" := by
  refine ⟨⟨by norm_num, by norm_num⟩, ?_, rfl⟩
  intro doc h
  rw [show (serveIndividualSpec exSpecs exParse c4fetch201 "petstore").2 =
      RenderOutcome.error 201 "Failed to fetch spec, status: 201"
        "Failed to fetch spec, status: 201" from rfl] at h
  exact RenderOutcome.noConfusion h

/-- C4 (amended): for a registered name (whose URL the parse oracle accepts,
as it must since the GET on the same string succeeded), exactly one GET is
issued, to the record's URL — never a retry — and a rewritten document is
returned precisely when that GET returns status exactly 200 (not merely 2xx)
with a body that decodes as a JSON object; otherwise an error is returned. -/
theorem C4_single_fetch_status (specs : Snapshot)
    (parse : String → Except String URL) (fetch : String → FetchResult)
    (apiName : String) (metadata : APIMetadata)
    (hmeta : specs apiName = some metadata)
    (hparse : ∀ e, parse metadata.url ≠ .error e) :
    (serveIndividualSpec specs parse fetch apiName).1 = [metadata.url] ∧
    ((∃ doc, (serveIndividualSpec specs parse fetch apiName).2 =
        RenderOutcome.ok doc) ↔
      (∃ spec, fetch metadata.url = .success 200 (.ok spec))) := by
  cases hf : fetch metadata.url with
  | failure errText =>
    simp [serveIndividualSpec, hmeta, hf]
  | success statusCode decoded =>
    by_cases hs : statusCode = 200
    · subst hs
      cases hp : parse metadata.url with
      | error e => exact absurd hp (hparse e)
      | ok metadataURL =>
        cases hd : decoded with
        | error errText => simp [serveIndividualSpec, hmeta, hf, hp, hd]
        | ok spec => simp [serveIndividualSpec, hmeta, hf, hp, hd]
    · simp [serveIndividualSpec, hmeta, hf, hs]

/-- Closed instance of the amended C4 theorem: exactly one GET, to the
record's URL, for a `200` response with a decodable body. -/
theorem C4_single_fetch_status_witness :
    (serveIndividualSpec exSpecs exParse c4fetch200 "petstore").1 =
      ["http://spec.example/v2/swagger.json"] :=
  (C4_single_fetch_status exSpecs exParse c4fetch200 "petstore" exMeta rfl
    (fun _ h => Except.noConfusion h)).1

/-- C6 evidence: on a transport-level fetch failure the client-visible body
is the same string as the internal log message, `"Failed to fetch spec: "`
followed by the underlying Go error text — the internal cause is leaked to
the client rather than replaced by a generic message. -/
theorem C6_fetch_error_leak :
    (serveIndividualSpec exSpecs exParse c6fetchFail "petstore").2 =
      RenderOutcome.error 500 ("Failed to fetch spec: " ++ "connection refused")
        ("Failed to fetch spec: " ++ "connection refused") := rfl

/-! ## Proxy relay (claims C8, C9, C10) -/

theorem addHeader_count (h : Headers) (n v n2 v2 : String) :
    headerCount (addHeader h n v) n2 v2 =
      headerCount h n2 v2 + (if n = n2 ∧ v = v2 then 1 else 0) := by
  induction h with
  | nil =>
    by_cases hn : n = n2
    · subst hn
      by_cases hv : v = v2 <;> simp [addHeader, headerCount, List.count_singleton, hv]
    · simp [addHeader, headerCount, hn]
  | cons e rest ih =>
    by_cases he : e.1 = n
    · simp only [addHeader, if_pos he, headerCount, List.map_cons, List.sum_cons]
      by_cases hn : e.1 = n2
      · rw [if_pos hn, if_pos hn, List.count_append]
        have : n = n2 := he ▸ hn
        by_cases hv : v = v2 <;> simp [hv, this, List.count_singleton] <;> omega
      · have : ¬ n = n2 := fun hh => hn (he.trans hh)
        simp [hn, this, headerCount]
    · simp only [addHeader, if_neg he, headerCount, List.map_cons, List.sum_cons]
      have := ih
      simp only [headerCount] at this
      rw [this]
      omega

theorem addValues_count (vs : List String) (d : Headers) (k n v : String) :
    headerCount (vs.foldl (fun d2 w => addHeader d2 k w) d) n v =
      headerCount d n v + (if k = n then vs.count v else 0) := by
  induction vs generalizing d with
  | nil => simp
  | cons w ws ih =>
    rw [List.foldl_cons, ih, addHeader_count]
    by_cases hk : k = n
    · subst hk
      by_cases hw : w = v <;>
        simp [hw, List.count_cons, Nat.add_comm, Nat.add_assoc, Nat.add_left_comm]
    · simp [hk]

theorem addAll_count (dst src : Headers) (n v : String) :
    headerCount (addAll dst src) n v = headerCount dst n v + headerCount src n v := by
  induction src generalizing dst with
  | nil => simp [addAll, headerCount]
  | cons e rest ih =>
    simp only [addAll, List.foldl_cons] at ih ⊢
    rw [ih, addValues_count]
    simp only [headerCount, List.map_cons, List.sum_cons]
    omega

/-- C8: for a relayed proxy request, the single outbound request uses the
inbound method and carries every inbound header name/value pair with its
multiplicity; the response written back carries the upstream status (written
before the body), every upstream header pair verbatim on top of the headers
already set, and the upstream body byte for byte. -/
theorem C8_relay_fidelity (w0 : Headers)
    (upstream : OutboundRequest → Option UpstreamResponse) (r : HttpRequest)
    (resp : UpstreamResponse)
    (hq : getQuery r.query "proxyUrl" ≠ "")
    (hup : upstream
        { method := r.method, url := getQuery r.query "proxyUrl",
          headers := addAll [] r.headers, body := r.body } = some resp) :
    (proxyRequest w0 upstream r).1 =
      [{ method := r.method, url := getQuery r.query "proxyUrl",
         headers := addAll [] r.headers, body := r.body }] ∧
    (∀ n v, headerCount (addAll [] r.headers) n v = headerCount r.headers n v) ∧
    (proxyRequest w0 upstream r).2 =
      ProxyOutcome.relayed resp.statusCode (addAll w0 resp.headers) resp.body ∧
    (∀ n v, headerCount (addAll w0 resp.headers) n v =
      headerCount w0 n v + headerCount resp.headers n v) := by
  refine ⟨?_, ?_, ?_, ?_⟩
  · simp only [proxyRequest, if_neg hq, hup]
  · intro n v
    rw [addAll_count]
    simp [headerCount]
  · simp only [proxyRequest, if_neg hq, hup]
  · intro n v
    exact addAll_count w0 resp.headers n v

/-- Closed instance of the C8 theorem: a `POST` with duplicate inbound
headers relayed to an upstream answering `204` with duplicate response
headers; the universal header-fidelity clauses are instantiated at the
duplicated pairs. -/
theorem C8_relay_fidelity_witness :
    (proxyRequest [("Access-Control-Allow-Origin", ["*"])] c8upstream c8req).1 =
      [{ method := "POST", url := "http://backend/x",
         headers := addAll [] c8req.headers, body := c8req.body }] ∧
    headerCount (addAll [] c8req.headers) "X-A" "1" =
      headerCount c8req.headers "X-A" "1" ∧
    (proxyRequest [("Access-Control-Allow-Origin", ["*"])] c8upstream c8req).2 =
      ProxyOutcome.relayed c8resp.statusCode
        (addAll [("Access-Control-Allow-Origin", ["*"])] c8resp.headers)
        c8resp.body ∧
    headerCount (addAll [("Access-Control-Allow-Origin", ["*"])] c8resp.headers)
        "Set-Cookie" "a" =
      headerCount [("Access-Control-Allow-Origin", ["*"])] "Set-Cookie" "a" +
        headerCount c8resp.headers "Set-Cookie" "a" :=
  ⟨(C8_relay_fidelity [("Access-Control-Allow-Origin", ["*"])] c8upstream c8req
      c8resp (by decide) rfl).1,
   (C8_relay_fidelity [("Access-Control-Allow-Origin", ["*"])] c8upstream c8req
      c8resp (by decide) rfl).2.1 "X-A" "1",
   (C8_relay_fidelity [("Access-Control-Allow-Origin", ["*"])] c8upstream c8req
      c8resp (by decide) rfl).2.2.1,
   (C8_relay_fidelity [("Access-Control-Allow-Origin", ["*"])] c8upstream c8req
      c8resp (by decide) rfl).2.2.2 "Set-Cookie" "a"⟩

/-- Closed instance of the amended C7 theorem at the concrete batch
`[c7api]`. -/
theorem C7_stored_record_fields_witness :
    ∃ api ∈ [c7api], api.error = "" ∧ api.name = "svc" ∧
      (mkStoredMetadata c7api).name = api.name ∧
      (mkStoredMetadata c7api).url = api.url ∧
      (mkStoredMetadata c7api).resourceType = api.resourceType ∧
      (mkStoredMetadata c7api).resourceName = api.resourceName ∧
      (mkStoredMetadata c7api).nmspace = api.nmspace ∧
      (mkStoredMetadata c7api).lastUpdated = api.lastUpdated ∧
      (mkStoredMetadata c7api).allowedMethods = api.allowedMethods ∧
      (mkStoredMetadata c7api).title = api.name ∧
      (mkStoredMetadata c7api).description =
        "API from " ++ api.nmspace ++ "/" ++ api.resourceName ∧
      (mkStoredMetadata c7api).version = "" ∧
      (mkStoredMetadata c7api).error = "" :=
  C7_stored_record_fields [c7api] "svc" (mkStoredMetadata c7api) (by decide)

/-! ## Routing (claims C9 and C10) -/

/-- A path matched by the `/proxy/` prefix matches none of the earlier routes
of `ServeHTTP`'s dispatch table. -/
theorem proxy_route_disambig (p : String) (hp : strHasPref p "/proxy/" = true) :
    p ≠ "/" ∧ p ≠ "/index.html" ∧ p ≠ "/swagger-specs" ∧
    strHasPref p "/api/" = false := by
  rw [strHasPref, List.isPrefixOf_iff_prefix] at hp
  obtain ⟨t, ht⟩ := hp
  have hpx : "/proxy/".toList = ['/', 'p', 'r', 'o', 'x', 'y', '/'] := rfl
  rw [hpx] at ht
  refine ⟨?_, ?_, ?_, ?_⟩
  · intro hcontra
    rw [hcontra] at ht
    have h5 := congrArg (fun l => l.get? 1) ht
    simp at h5
  · intro hcontra
    rw [hcontra] at ht
    have : ('p' : Char) = 'i' := by
      have := congrArg (fun l => l.get? 1) ht
      simpa using this
    exact absurd this (by decide)
  · intro hcontra
    rw [hcontra] at ht
    have : ('p' : Char) = 's' := by
      have := congrArg (fun l => l.get? 1) ht
      simpa using this
    exact absurd this (by decide)
  · rw [strHasPref]
    by_contra hcontra
    have hpref : "/api/".toList <+: p.toList := by
      rw [← List.isPrefixOf_iff_prefix]
      simpa using hcontra
    obtain ⟨u, hu⟩ := hpref
    rw [show "/api/".toList = ['/', 'a', 'p', 'i', '/'] from rfl] at hu
    rw [← ht] at hu
    have : ('a' : Char) = 'p' := by
      have := congrArg (fun l => l.get? 1) hu
      simpa using this
    exact absurd this (by decide)

/-- C9: a non-OPTIONS request whose (base-path-stripped) path matches the
proxy prefix and whose `proxyUrl` query parameter is absent or empty is
answered with `400` and the message that the parameter is required, and no
outbound request is dispatched. -/
theorem C9_missing_proxyUrl (basePath : String) (w0 : Headers)
    (upstream : OutboundRequest → Option UpstreamResponse) (r : HttpRequest)
    (hm : r.method ≠ "OPTIONS")
    (hp : strHasPref (stripBasePath basePath r.path) "/proxy/" = true)
    (hq : getQuery r.query "proxyUrl" = "") :
    serveHTTP basePath w0 upstream r =
      RouteOutcome.proxied []
        (ProxyOutcome.clientError 400
          "proxyUrl query parameter is required for all requests") := by
  obtain ⟨h1, h2, h3, h4⟩ := proxy_route_disambig _ hp
  rw [serveHTTP, if_neg hm]
  simp only [h1, h2, h3, h4, hp]
  simp [proxyRequest, hq]

/-- Closed instance of the C9 theorem: `GET /proxy/anything` with no
`proxyUrl` query parameter. -/
theorem C9_missing_proxyUrl_witness :
    serveHTTP "" [] c8upstream
      { method := "GET", path := "/proxy/anything", query := [],
        headers := [], body := none } =
      RouteOutcome.proxied []
        (ProxyOutcome.clientError 400
          "proxyUrl query parameter is required for all requests") :=
  C9_missing_proxyUrl "" [] c8upstream
    { method := "GET", path := "/proxy/anything", query := [],
      headers := [], body := none }
    (by decide) (by decide) rfl

/-- C10: every outbound request the relay dispatches has as its URL exactly
the value of the `proxyUrl` query parameter; and the relay's behaviour is
unchanged under any change of the inbound path or of other query parameters
— they are discarded, never appended to or forwarded in the outbound URL. -/
theorem C10_outbound_url (w0 : Headers)
    (upstream : OutboundRequest → Option UpstreamResponse) (r : HttpRequest) :
    (∀ out ∈ (proxyRequest w0 upstream r).1,
        out.url = getQuery r.query "proxyUrl") ∧
    (∀ r2 : HttpRequest, r2.method = r.method → r2.headers = r.headers →
        r2.body = r.body →
        getQuery r2.query "proxyUrl" = getQuery r.query "proxyUrl" →
        proxyRequest w0 upstream r2 = proxyRequest w0 upstream r) := by
  constructor
  · intro out hout
    by_cases hq : getQuery r.query "proxyUrl" = ""
    · simp [proxyRequest, hq] at hout
    · simp only [proxyRequest, if_neg hq] at hout
      cases hup : upstream
          { method := r.method, url := getQuery r.query "proxyUrl",
            headers := addAll [] r.headers, body := r.body } with
      | none =>
        rw [hup] at hout
        simp at hout
        rw [hout]
      | some resp =>
        rw [hup] at hout
        simp at hout
        rw [hout]
  · intro r2 hmeth hhead hbody hquery
    simp only [proxyRequest, hmeth, hhead, hbody, hquery]

/-! ## URL resolution: the segment algorithm of the embedding coincides with
RFC 3986 §5.2.4's character-level `remove_dot_segments` (claim C2). -/

theorem splitSl_ne_nil (l : List Char) : splitSl l ≠ [] := by
  cases l with
  | nil => simp [splitSl]
  | cons c cs =>
    simp only [splitSl]
    by_cases h : c = '/'
    · simp [h]
    · simp only [if_neg h]
      cases h2 : splitSl cs <;> simp

theorem splitSl_noslash_mem (l : List Char) :
    ∀ s ∈ splitSl l, noChar '/' s := by
  induction l with
  | nil =>
    intro s hs
    simp [splitSl] at hs
    simp [hs, noChar]
  | cons c cs ih =>
    intro s hs
    simp only [splitSl] at hs
    by_cases h : c = '/'
    · rw [if_pos h] at hs
      rcases List.mem_cons.mp hs with h1 | h1
      · simp [h1, noChar]
      · exact ih s h1
    · rw [if_neg h] at hs
      cases h2 : splitSl cs with
      | nil => exact absurd h2 (splitSl_ne_nil cs)
      | cons s0 ss =>
        rw [h2] at hs
        rcases List.mem_cons.mp hs with h1 | h1
        · subst h1
          intro x hx
          rcases List.mem_cons.mp hx with h3 | h3
          · subst h3; exact h
          · exact ih s0 (h2 ▸ List.mem_cons_self s0 ss) x h3
        · exact ih s (h2 ▸ List.mem_cons_of_mem s0 h1)

theorem splitSl_noslash_only (l : List Char) (h : noChar '/' l) :
    splitSl l = [l] := by
  induction l with
  | nil => simp [splitSl]
  | cons c cs ih =>
    have hc : c ≠ '/' := h c (List.mem_cons_self c cs)
    have hcs : noChar '/' cs := fun x hx => h x (List.mem_cons_of_mem c hx)
    simp only [splitSl, if_neg hc, ih hcs]

theorem splitSl_append_slash (seg : List Char) (h : noChar '/' seg)
    (r : List Char) : splitSl (seg ++ '/' :: r) = seg :: splitSl r := by
  induction seg with
  | nil => simp [splitSl]
  | cons c cs ih =>
    have hc : c ≠ '/' := h c (List.mem_cons_self c cs)
    have hcs : noChar '/' cs := fun x hx => h x (List.mem_cons_of_mem c hx)
    simp only [List.cons_append, splitSl, if_neg hc]
    rw [show cs.append ('/' :: r) = cs ++ '/' :: r from rfl, ih hcs]

theorem exists_seg_decomp (l : List Char) :
    noChar '/' l ∨ ∃ seg r, noChar '/' seg ∧ l = seg ++ '/' :: r := by
  induction l with
  | nil => left; simp [noChar]
  | cons c cs ih =>
    by_cases h : c = '/'
    · right
      exact ⟨[], cs, by simp [noChar], by simp [h]⟩
    · rcases ih with h1 | ⟨seg, r, hn, he⟩
      · left
        intro x hx
        rcases List.mem_cons.mp hx with h2 | h2
        · subst h2; exact h
        · exact h1 x h2
      · right
        refine ⟨c :: seg, r, ?_, by simp [he]⟩
        intro x hx
        rcases List.mem_cons.mp hx with h2 | h2
        · subst h2; exact h
        · exact hn x h2

theorem catSegs_append_single (d : List (List Char)) (s : List Char) :
    catSegs (d ++ [s]) = catSegs d ++ '/' :: s := by
  induction d with
  | nil => simp [catSegs]
  | cons a d ih => simp [catSegs, List.foldr_cons] at ih ⊢; simp [ih]

theorem catSegs_cons (s : List Char) (d : List (List Char)) :
    catSegs (s :: d) = '/' :: s ++ catSegs d := rfl

theorem dropWhile_noslash (s : List Char) (h : noChar '/' s) :
    s.dropWhile (fun c => c ≠ '/') = [] := by
  rw [List.dropWhile_eq_nil_iff]
  intro x hx
  simp [h x hx]

theorem takeWhile_noslash (s : List Char) (h : noChar '/' s) :
    s.takeWhile (fun c => c ≠ '/') = s := by
  rw [List.takeWhile_eq_self_iff]
  intro x hx
  simp [h x hx]

theorem takeWhile_append_slash (seg : List Char) (h : noChar '/' seg)
    (r : List Char) :
    (seg ++ '/' :: r).takeWhile (fun c => c ≠ '/') = seg ∧
    (seg ++ '/' :: r).dropWhile (fun c => c ≠ '/') = '/' :: r := by
  induction seg with
  | nil => simp [List.takeWhile_cons, List.dropWhile_cons]
  | cons c cs ih =>
    have hc : c ≠ '/' := h c (List.mem_cons_self c cs)
    have hcs : noChar '/' cs := fun x hx => h x (List.mem_cons_of_mem c hx)
    obtain ⟨ih1, ih2⟩ := ih hcs
    constructor
    · rw [List.cons_append, List.takeWhile_cons, if_pos (by simp [hc]), ih1]
    · rw [List.cons_append, List.dropWhile_cons, if_pos (by simp [hc]), ih2]

theorem popSeg_append (x s : List Char) (h : noChar '/' s) :
    popSeg (x ++ '/' :: s) = x := by
  simp only [popSeg, List.reverse_append, List.reverse_cons]
  rw [List.append_assoc, List.dropWhile_append]
  rw [dropWhile_noslash s.reverse (fun c hc => h c (List.mem_reverse.mp hc))]
  simp [List.dropWhile_cons]

theorem popSeg_noslash (s : List Char) (h : noChar '/' s) : popSeg s = [] := by
  simp only [popSeg]
  rw [dropWhile_noslash s.reverse (fun c hc => h c (List.mem_reverse.mp hc))]
  simp

theorem popSeg_catSegs (osegs : List (List Char))
    (h : ∀ s ∈ osegs, noChar '/' s) :
    popSeg (catSegs osegs) = catSegs osegs.dropLast := by
  rcases List.eq_nil_or_concat osegs with hnil | ⟨d, s, hds⟩
  · subst hnil
    simp [catSegs, popSeg]
  · subst hds
    rw [List.concat_eq_append, catSegs_append_single, popSeg_append _ _
      (h s (by simp)), List.dropLast_concat]

theorem lastIsDot_cons (s : List Char) (L : List (List Char)) (h : L ≠ []) :
    lastIsDot (s :: L) = lastIsDot L := by
  cases L with
  | nil => exact absurd rfl h
  | cons a L2 => simp [lastIsDot, List.getLast?_cons_cons]

theorem take2_eq_dotslash {mid : List Char} (h : mid.take 2 = ['.', '/']) :
    mid.takeWhile (fun c => c ≠ '/') = ['.'] := by
  cases mid with
  | nil => simp at h
  | cons a t =>
    cases t with
    | nil => simp at h
    | cons b u =>
      simp only [List.take_succ_cons, List.take_zero, List.cons.injEq] at h
      obtain ⟨ha, hb, -⟩ := h
      subst ha; subst hb
      simp [List.takeWhile_cons]

theorem take3_eq_dotdotslash {mid : List Char} (h : mid.take 3 = ['.', '.', '/']) :
    mid.takeWhile (fun c => c ≠ '/') = ['.', '.'] := by
  cases mid with
  | nil => simp at h
  | cons a t =>
    cases t with
    | nil => simp at h
    | cons b u =>
      cases u with
      | nil => simp at h
      | cons e w =>
        simp only [List.take_succ_cons, List.take_zero, List.cons.injEq] at h
        obtain ⟨ha, hb, he, -⟩ := h
        subst ha; subst hb; subst he
        simp [List.takeWhile_cons]

theorem rdsF_nil (fuel : Nat) (out : List Char) :
    rdsF (fuel + 1) out [] = out := by
  simp [rdsF]

theorem rdsF_B1 (fuel : Nat) (out rest : List Char) :
    rdsF (fuel + 1) out ('/' :: '.' :: '/' :: rest) = rdsF fuel out ('/' :: rest) := by
  simp [rdsF, List.take_succ_cons]

theorem rdsF_B2 (fuel : Nat) (out : List Char) :
    rdsF (fuel + 1) out ['/', '.'] = rdsF fuel out ['/'] := by
  simp [rdsF, List.take_succ_cons]

theorem rdsF_C1 (fuel : Nat) (out rest : List Char) :
    rdsF (fuel + 1) out ('/' :: '.' :: '.' :: '/' :: rest) =
      rdsF fuel (popSeg out) ('/' :: rest) := by
  simp [rdsF, List.take_succ_cons]

theorem rdsF_C2 (fuel : Nat) (out : List Char) :
    rdsF (fuel + 1) out ['/', '.', '.'] = rdsF fuel (popSeg out) ['/'] := by
  simp [rdsF, List.take_succ_cons]

theorem rdsF_E (fuel : Nat) (out mid : List Char)
    (h1 : mid.takeWhile (fun c => c ≠ '/') ≠ ['.'])
    (h2 : mid.takeWhile (fun c => c ≠ '/') ≠ ['.', '.']) :
    rdsF (fuel + 1) out ('/' :: mid) =
      rdsF fuel (out ++ '/' :: mid.takeWhile (fun c => c ≠ '/'))
        (mid.dropWhile (fun c => c ≠ '/')) := by
  have hv : ¬ ('/' :: mid).take 3 = ['/', '.', '/'] := by
    intro hc
    refine h1 (take2_eq_dotslash ?_)
    simpa [List.take_succ_cons] using hc
  have hvi : ¬ '/' :: mid = ['/', '.'] := by
    intro hc
    have : mid = ['.'] := by simpa using hc
    subst this
    exact h1 (by simp [List.takeWhile_cons])
  have hvii : ¬ ('/' :: mid).take 4 = ['/', '.', '.', '/'] := by
    intro hc
    refine h2 (take3_eq_dotdotslash ?_)
    simpa [List.take_succ_cons] using hc
  have hviii : ¬ '/' :: mid = ['/', '.', '.'] := by
    intro hc
    have : mid = ['.', '.'] := by simpa using hc
    subst this
    exact h2 (by simp [List.takeWhile_cons])
  rw [rdsF]
  rw [if_neg (by simp), if_neg (by simp [List.take_succ_cons]),
    if_neg (by simp [List.take_succ_cons]), if_neg (by simp),
    if_neg hv, if_neg hvi, if_neg hvii, if_neg hviii,
    if_pos (by simp)]
  rfl

theorem rdsF_slash (fuel : Nat) (out : List Char) :
    rdsF (fuel + 2) out ['/'] = out ++ ['/'] := by
  have h := rdsF_E (fuel + 1) out [] (by simp) (by simp)
  simp only [List.takeWhile_nil, List.dropWhile_nil] at h
  rw [show fuel + 2 = (fuel + 1) + 1 from rfl, h]
  exact rdsF_nil fuel (out ++ ['/'])

/-- The RFC 3986 §5.2.4 character-level loop, run on a `'/'`-led input whose
output buffer holds already-emitted segments, computes exactly the
segment-level dot-elimination `goProcess` used by the embedded
`resolvePath`. -/
theorem rdsF_goProcess (fuel : Nat) :
    ∀ (rest : List Char) (osegs : List (List Char)),
      rest.length + 2 ≤ fuel →
      (∀ s ∈ osegs, noChar '/' s) →
      rdsF fuel (catSegs osegs) ('/' :: rest) =
        catSegs (goProcess osegs (splitSl rest)) := by
  induction fuel using Nat.strong_induction_on with
  | _ fuel ih =>
    intro rest osegs hfuel hns
    obtain ⟨f, rfl⟩ : ∃ f, fuel = f + 1 := ⟨fuel - 1, by omega⟩
    rcases exists_seg_decomp rest with hno | ⟨seg, r, hnseg, rfl⟩
    · rw [splitSl_noslash_only rest hno]
      by_cases hd1 : rest = ['.']
      · subst hd1
        rw [rdsF_B2]
        have hb : 2 ≤ f := by simp at hfuel; omega
        obtain ⟨f2, rfl⟩ : ∃ f2, f = f2 + 2 := ⟨f - 2, by omega⟩
        rw [rdsF_slash]
        simp [goProcess, dotStep, lastIsDot, isDotSeg, catSegs_append_single]
      · by_cases hd2 : rest = ['.', '.']
        · subst hd2
          rw [rdsF_C2]
          have hb : 2 ≤ f := by simp at hfuel; omega
          obtain ⟨f2, rfl⟩ : ∃ f2, f = f2 + 2 := ⟨f - 2, by omega⟩
          rw [rdsF_slash, popSeg_catSegs osegs hns]
          simp [goProcess, dotStep, lastIsDot, isDotSeg, catSegs_append_single]
        · rw [rdsF_E f (catSegs osegs) rest
              (by rw [takeWhile_noslash rest hno]; exact hd1)
              (by rw [takeWhile_noslash rest hno]; exact hd2)]
          rw [takeWhile_noslash rest hno, dropWhile_noslash rest hno]
          have hb : 1 ≤ f := by simp at hfuel; omega
          obtain ⟨f2, rfl⟩ : ∃ f2, f = f2 + 1 := ⟨f - 1, by omega⟩
          rw [rdsF_nil, ← catSegs_append_single]
          simp [goProcess, dotStep, hd1, hd2, lastIsDot, isDotSeg]
    · have hlen : r.length + 2 ≤ f := by
        have h0 := hfuel
        simp [List.length_append] at h0
        omega
      rw [splitSl_append_slash seg hnseg r]
      have hsplit_ne := splitSl_ne_nil r
      by_cases hd1 : seg = ['.']
      · subst hd1
        rw [show ('/' :: (['.'] ++ '/' :: r)) = '/' :: '.' :: '/' :: r from rfl,
          rdsF_B1, ih f (by omega) r osegs hlen hns]
        simp only [goProcess, List.foldl_cons]
        rw [show dotStep osegs ['.'] = osegs from by simp [dotStep],
          lastIsDot_cons _ _ hsplit_ne]
      · by_cases hd2 : seg = ['.', '.']
        · subst hd2
          have hns2 : ∀ s ∈ osegs.dropLast, noChar '/' s :=
            fun s hs => hns s ((List.dropLast_sublist osegs).subset hs)
          rw [show ('/' :: (['.', '.'] ++ '/' :: r)) =
              '/' :: '.' :: '.' :: '/' :: r from rfl,
            rdsF_C1, popSeg_catSegs osegs hns,
            ih f (by omega) r osegs.dropLast hlen hns2]
          simp only [goProcess, List.foldl_cons]
          rw [show dotStep osegs ['.', '.'] = osegs.dropLast from by simp [dotStep],
            lastIsDot_cons _ _ hsplit_ne]
        · obtain ⟨ht, hdw⟩ := takeWhile_append_slash seg hnseg r
          rw [rdsF_E f (catSegs osegs) (seg ++ '/' :: r)
              (by rw [ht]; exact hd1) (by rw [ht]; exact hd2)]
          rw [ht, hdw, ← catSegs_append_single]
          have hns2 : ∀ s ∈ osegs ++ [seg], noChar '/' s := by
            intro s hs
            rcases List.mem_append.mp hs with h | h
            · exact hns s h
            · simp at h; subst h; exact hnseg
          rw [ih f (by omega) r (osegs ++ [seg]) hlen hns2]
          simp only [goProcess, List.foldl_cons]
          rw [show dotStep osegs seg = osegs ++ [seg] from by
              simp [dotStep, hd1, hd2],
            lastIsDot_cons _ _ hsplit_ne]

/-- On a `'/'`-led path, the embedded `resolvePathCore` computes exactly the
RFC 3986 §5.2.4 `remove_dot_segments` loop. -/
theorem resolvePathCore_eq_rdsF (rest : List Char) :
    resolvePathCore ('/' :: rest) = rdsF (rest.length + 2) [] ('/' :: rest) := by
  have h := rdsF_goProcess (rest.length + 2) rest [] (by omega) (by simp)
  rw [show catSegs [] = ([] : List Char) from rfl] at h
  rw [h]
  rfl

theorem toList_append (s t : String) : (s ++ t).toList = s.toList ++ t.toList :=
  String.data_append s t

theorem toList_asString (l : List Char) : (l.asString).toList = l := rfl

theorem upToLastSlash_ends_slash (l : List Char) (h : l.getLast? = some '/') :
    upToLastSlash l = l := by
  rcases List.eq_nil_or_concat l with rfl | ⟨L, b, rfl⟩
  · simp at h
  · rw [List.concat_eq_append] at h ⊢
    rw [List.getLast?_concat] at h
    have hb : b = '/' := by simpa using h
    subst hb
    rw [upToLastSlash, List.reverse_append]
    simp [List.dropWhile_cons]

theorem goProcess_ne_nil (osegs segs : List (List Char)) (h : segs ≠ []) :
    goProcess osegs segs ≠ [] := by
  rcases List.eq_nil_or_concat segs with rfl | ⟨L, e, rfl⟩
  · exact absurd rfl h
  · rw [List.concat_eq_append, goProcess]
    simp only [List.foldl_concat, lastIsDot, List.getLast?_concat]
    by_cases he : isDotSeg e = true
    · simp [he]
    · have he2 : ¬ e = ['.'] ∧ ¬ e = ['.', '.'] := by
        by_contra hc
        rw [not_and_or, not_not, not_not] at hc
        rcases hc with hc | hc <;> simp [hc, isDotSeg] at he
      simp [he, dotStep, he2.1, he2.2]

theorem catSegs_head (d : List (List Char)) (h : d ≠ []) :
    ∃ t, catSegs d = '/' :: t := by
  cases d with
  | nil => exact absurd rfl h
  | cons a d2 => exact ⟨a ++ catSegs d2, rfl⟩

theorem head_ne_slash_of_no_pref (s : String) (h : ¬ strHasPref s "/" = true) :
    s.toList.head? ≠ some '/' := by
  rw [strHasPref] at h
  cases hl : s.toList with
  | nil => simp
  | cons c cs =>
    rw [hl] at h
    intro hc
    have : c = '/' := by simpa using hc
    subst this
    exact h (by simp [List.isPrefixOf, List.IsPrefix])

/-- The embedded `resolvePath` on a `'/'`-led, `'/'`-terminated base path and
a relative reference computes exactly RFC 3986's
`remove_dot_segments(base ++ ref)`. -/
theorem resolvePath_eq_removeDotSegments (bp pc : String) (u : List Char)
    (hbph : bp.toList = '/' :: u) (hbpl : endsInSlash bp = true)
    (hne : pc ≠ "") (hh : pc.toList.head? ≠ some '/') :
    resolvePath bp pc = removeDotSegments (bp ++ pc) := by
  have hg : bp.toList.getLast? = some '/' := by
    have := hbpl
    rw [endsInSlash] at this
    exact of_decide_eq_true this
  rw [resolvePath]
  simp only [if_neg hne, if_neg hh]
  rw [upToLastSlash_ends_slash bp.toList hg]
  have hfull : bp.toList ++ pc.toList = '/' :: (u ++ pc.toList) := by
    rw [hbph]; rfl
  rw [hfull, if_neg (by simp)]
  rw [removeDotSegments, toList_append, hfull]
  rw [resolvePathCore_eq_rdsF]
  have hlen : (u ++ pc.toList).length + 2 = ('/' :: (u ++ pc.toList)).length + 1 := by
    simp
  rw [hlen]

/-- Rendering a URL whose path begins with `'/'` and whose scheme is
non-empty produces `scheme://host` + path. -/
theorem render_slash_path (sch hst p : String) (hs : sch ≠ "")
    (hp : ∃ t, p.toList = '/' :: t) :
    URL.render ⟨sch, hst, p⟩ = sch ++ "://" ++ hst ++ p := by
  obtain ⟨t, ht⟩ := hp
  have hpne : p ≠ "" := by
    intro h
    rw [h] at ht
    simp at ht
  rw [URL.render]
  simp only
  rw [if_pos hs, if_pos (Or.inl hs), if_pos (Or.inr hpne),
    if_neg (by rw [ht]; simp)]
  rw [← String.append_assoc (sch ++ ":") "//" hst]
  rw [String.append_assoc sch ":" "//"]
  rw [show (":" ++ "//" : String) = "://" from rfl]

theorem toList_of_pref_slash (s : String) (h : strHasPref s "/" = true) :
    ∃ u, s.toList = '/' :: u := by
  rw [strHasPref, List.isPrefixOf_iff_prefix] at h
  obtain ⟨t, ht⟩ := h
  exact ⟨t, by rw [← ht]; rfl⟩

theorem endsInSlash_append (s : String) : endsInSlash (s ++ "/") = true := by
  rw [endsInSlash, toList_append]
  rw [show ("/" : String).toList = ['/'] from rfl]
  simp [List.getLast?_concat]

theorem resolvePath_head (bp pc : String) (u : List Char)
    (hbph : bp.toList = '/' :: u) (hbpl : endsInSlash bp = true)
    (hne : pc ≠ "") (hh : pc.toList.head? ≠ some '/') :
    ∃ t, (resolvePath bp pc).toList = '/' :: t := by
  have hg : bp.toList.getLast? = some '/' := by
    have h0 := hbpl
    rw [endsInSlash] at h0
    exact of_decide_eq_true h0
  rw [resolvePath]
  simp only [if_neg hne, if_neg hh]
  rw [upToLastSlash_ends_slash bp.toList hg]
  have hfull : bp.toList ++ pc.toList = '/' :: (u ++ pc.toList) := by
    rw [hbph]; rfl
  rw [hfull, if_neg (by simp)]
  rw [show resolvePathCore ('/' :: (u ++ pc.toList)) =
      catSegs (goProcess [] (splitSl (u ++ pc.toList))) from rfl]
  obtain ⟨t, ht⟩ := catSegs_head _ (goProcess_ne_nil [] _ (splitSl_ne_nil _))
  exact ⟨t, by rw [ht]; rfl⟩

/-- C2: for every well-formed absolute base URL (non-empty scheme, path
empty or `'/'`-led) and every pathComponent that is neither empty nor parses
as an absolute URL, `makeServerURL` returns `scheme://host` of the base
concatenated with the component when the component starts with `"/"` (the
base's path is replaced entirely); otherwise it returns the RFC 3986
relative-reference resolution of the component against the base after
ensuring the base's path ends with `"/"` (so sibling segments join under the
full base path rather than replacing its last segment). -/
theorem C2_resolve_semantics (base : URL) (pc : String)
    (hne : pc ≠ "") (habs : hasScheme pc = false)
    (hwf : base.path = "" ∨ strHasPref base.path "/" = true)
    (hs : base.scheme ≠ "") :
    makeServerURL base pc =
      if strHasPref pc "/" = true then
        base.scheme ++ "://" ++ base.host ++ pc
      else rfcResolve base pc := by
  have hcoe : (hasScheme pc = true) = False := by simp [habs]
  simp only [makeServerURL, if_neg hne, hcoe, if_false]
  by_cases hsp : strHasPref pc "/" = true
  · rw [if_pos hsp, if_pos hsp]
  · rw [if_neg hsp, if_neg hsp]
    have hh : pc.toList.head? ≠ some '/' := head_ne_slash_of_no_pref pc hsp
    rw [rfcResolve]
    by_cases hev : endsInSlash base.path = true
    · have hpne : base.path ≠ "" := by
        intro h0
        rw [h0] at hev
        simp [endsInSlash] at hev
      rw [if_neg (by simp [hev, hpne]), if_pos hev]
      have hu : ∃ u, base.path.toList = '/' :: u := by
        rcases hwf with h0 | h0
        · exact absurd h0 hpne
        · exact toList_of_pref_slash base.path h0
      obtain ⟨u, hu⟩ := hu
      rw [show resolveReference base pc =
          ⟨base.scheme, base.host, resolvePath base.path pc⟩ from rfl]
      rw [render_slash_path base.scheme base.host (resolvePath base.path pc) hs
        (resolvePath_head base.path pc u hu hev hne hh)]
      rw [resolvePath_eq_removeDotSegments base.path pc u hu hev hne hh]
    · rw [if_pos (And.intro (Or.inr hev) hsp), if_neg hev]
      have hu : ∃ u, (base.path ++ "/").toList = '/' :: u := by
        rcases hwf with h0 | h0
        · exact ⟨[], by rw [toList_append, h0]; rfl⟩
        · obtain ⟨w, hw⟩ := toList_of_pref_slash base.path h0
          exact ⟨w ++ "/".toList, by rw [toList_append, hw]; rfl⟩
      obtain ⟨u, hu⟩ := hu
      have hlast := endsInSlash_append base.path
      rw [show resolveReference { base with path := base.path ++ "/" } pc =
          ⟨base.scheme, base.host, resolvePath (base.path ++ "/") pc⟩ from rfl]
      rw [render_slash_path base.scheme base.host
        (resolvePath (base.path ++ "/") pc) hs
        (resolvePath_head (base.path ++ "/") pc u hu hlast hne hh)]
      rw [resolvePath_eq_removeDotSegments (base.path ++ "/") pc u hu hlast hne hh]

/-- Closed instance of the C2 theorem: base `http://h/a/b` (a well-formed
absolute URL) with the relative component `c/../d` (non-empty, not absolute,
not `'/'`-led). -/
theorem C2_resolve_semantics_witness :
    ("c/../d" ≠ "" ∧ hasScheme "c/../d" = false) ∧
    makeServerURL ⟨"http", "h", "/a/b"⟩ "c/../d" =
      (if strHasPref "c/../d" "/" = true then
        "http" ++ "://" ++ "h" ++ "c/../d"
      else rfcResolve ⟨"http", "h", "/a/b"⟩ "c/../d") :=
  ⟨⟨by decide, by decide⟩,
    C2_resolve_semantics ⟨"http", "h", "/a/b"⟩ "c/../d" (by decide) (by decide)
      (Or.inr (by decide)) (by decide)⟩

/-- Closed instance of the C10 theorem at `c8req`: the outbound request's
URL is the `proxyUrl` value, and changing the path suffix and the unrelated
query parameter (`c8req2`) leaves the relay's behaviour identical. -/
theorem C10_outbound_url_witness :
    ({ method := "POST", url := "http://backend/x",
       headers := addAll [] c8req.headers, body := c8req.body } :
        OutboundRequest).url = getQuery c8req.query "proxyUrl" ∧
    proxyRequest [] c8upstream c8req2 = proxyRequest [] c8upstream c8req :=
  ⟨(C10_outbound_url [] c8upstream c8req).1 _ (by decide),
   (C10_outbound_url [] c8upstream c8req).2 c8req2 rfl rfl rfl rfl⟩

end Swagger
